import Mathlib

/-!
Shallow embedding of the GitHub analyzer core shared by src/github-api.py and
src/github_analyzer_app.py. Pure data flows become Lean functions; the HTTP
layer is abstracted as the sequence of responses the server hands back, and
the per-repository sub-resource fetches become data carried alongside each
repository (a failed sub-resource call is the empty mapping or empty list, as
produced by the `or` fallbacks in get_repo_languages and get_commit_activity).
-/

/-- Raw repository record with the fields the analyzer reads. Nullable JSON
fields are Option. -/
structure RawRepo where
  full_name : String
  name : String
  stargazers_count : Int
  forks_count : Int
  description : Option String
  language : Option String
deriving DecidableEq

/-- Outcome of one _make_request call for a repository page: the method
returns None on transport failure or on a non-200 status, and otherwise the
parsed body, which is either a list of repositories or some other value. -/
inductive PageResp where
  | failure
  | notList
  | page (l : List RawRepo)
deriving DecidableEq

/-- get_user_repos of src/github-api.py, lines 49 to 71, over the sequence of
responses the server returns for pages 1, 2, 3, and so on. The loop breaks
when the response is falsy (None or the empty list) or is not a list;
otherwise it extends the accumulator and requests the next page. -/
def get_user_repos_api : List PageResp → List RawRepo
  | [] => []
  | PageResp.failure :: _ => []
  | PageResp.notList :: _ => []
  | PageResp.page [] :: _ => []
  | PageResp.page (r :: rs) :: rest => (r :: rs) ++ get_user_repos_api rest

/-- Number of page requests issued by get_user_repos of src/github-api.py on
the given response sequence: one per loop iteration. -/
def pages_requested_api : List PageResp → Nat
  | [] => 0
  | PageResp.failure :: _ => 1
  | PageResp.notList :: _ => 1
  | PageResp.page [] :: _ => 1
  | PageResp.page (_ :: _) :: rest => 1 + pages_requested_api rest

/-- get_user_repos of src/github_analyzer_app.py, lines 57 to 83. Same break
conditions as the terminal version, plus a final break once the page just
extended held fewer than 100 entries. -/
def get_user_repos_app : List PageResp → List RawRepo
  | [] => []
  | PageResp.failure :: _ => []
  | PageResp.notList :: _ => []
  | PageResp.page [] :: _ => []
  | PageResp.page (r :: rs) :: rest =>
    if (r :: rs).length < 100 then r :: rs
    else (r :: rs) ++ get_user_repos_app rest

/-- Number of page requests issued by get_user_repos of
src/github_analyzer_app.py on the given response sequence. -/
def pages_requested_app : List PageResp → Nat
  | [] => 0
  | PageResp.failure :: _ => 1
  | PageResp.notList :: _ => 1
  | PageResp.page [] :: _ => 1
  | PageResp.page (r :: rs) :: rest =>
    if (r :: rs).length < 100 then 1 else 1 + pages_requested_app rest

/-- Process-wide rate limit fields of the analyzer instance; both start as
None. -/
structure RateState where
  rate_limit_remaining : Option Int
  rate_limit_reset : Option Int
deriving DecidableEq

/-- One rate limit response header: absent from the response, present but not
an integer literal, or present with an integer value. -/
inductive HeaderVal where
  | absent
  | malformed
  | val (n : Int)
deriving DecidableEq

/-- Python expression int(response.headers.get(k, 0)): an absent header
yields the default 0, a numeric header parses to its value, and a non-numeric
header makes int raise ValueError, modelled as none. -/
def int_of_header : HeaderVal → Option Int
  | HeaderVal.absent => some 0
  | HeaderVal.malformed => none
  | HeaderVal.val n => some n

/-- Header observation step of _make_request, lines 33 and 34 of
src/github-api.py: both fields are assigned in order from the parsed headers.
A ValueError raised while parsing the second header escapes after the first
assignment already happened, so the error value carries the state at the
moment of the raise. Only requests.RequestException is caught by the method,
so the ValueError propagates to the caller. -/
def observe (s : RateState) (rem rst : HeaderVal) : Except RateState RateState :=
  match int_of_header rem with
  | none => Except.error s
  | some r =>
    match int_of_header rst with
    | none => Except.error { s with rate_limit_remaining := some r }
    | some t => Except.ok { rate_limit_remaining := some r, rate_limit_reset := some t }

/-- Rate limit gate at the top of _make_request, lines 22 to 28 of
src/github-api.py: when the recorded remaining quota is known and below 5 and
the recorded reset time is after now, the flow sleeps for reset minus now
plus one second; otherwise it proceeds at once. The value some w is the
number of seconds the flow waits before issuing the request; none models the
TypeError from datetime.fromtimestamp(None), a state the paired header
assignments of observe never produce. -/
def maybe_wait (s : RateState) (now : Int) : Option Int :=
  match s.rate_limit_remaining with
  | none => some 0
  | some r =>
    if r < 5 then
      match s.rate_limit_reset with
      | none => none
      | some t => if now < t then some (t - now + 1) else some 0
    else some 0

/-- One optional field of the user profile object: the key can be absent, or
present with a null value, or present with a value. -/
inductive JField (α : Type) where
  | absent
  | present (v : Option α)
deriving DecidableEq

/-- Python dict.get(key, default): the default is returned only when the key
is absent; a key present with a null value returns None. -/
def jget {α : Type} (f : JField α) (d : α) : Option α :=
  match f with
  | JField.absent => some d
  | JField.present v => v

/-- User profile JSON fields read by analyze_user_activity. -/
structure UserInfo where
  name : JField String
  bio : JField String
  location : JField String
  public_repos : JField Int
  followers : JField Int
  following : JField Int
  created_at : JField String
deriving DecidableEq

/-- The user_info block of the analysis result, built with dict.get defaults
at lines 93 to 101 of src/github-api.py. -/
structure UserSummary where
  name : Option String
  bio : Option String
  location : Option String
  public_repos : Option Int
  followers : Option Int
  following : Option Int
  created_at : Option String
deriving DecidableEq

/-- Assembly of the user_info block from the profile JSON. -/
def assemble_user_info (u : UserInfo) : UserSummary :=
  { name := jget u.name "N/A"
    bio := jget u.bio "N/A"
    location := jget u.location "N/A"
    public_repos := jget u.public_repos 0
    followers := jget u.followers 0
    following := jget u.following 0
    created_at := jget u.created_at "N/A" }

/-- Counter update: tally[k] += v, with missing keys read as 0. The Counter
is modelled by its count function. -/
def bump (t : String → Int) (k : String) (v : Int) : String → Int :=
  fun q => if q = k then t q + v else t q

/-- Language fold of analyze_user_activity, lines 120 to 122 of
src/github-api.py: every pair of the per-repository language mapping is added
into the languages Counter. -/
def fold_languages (t : String → Int) (ls : List (String × Int)) : String → Int :=
  ls.foldl (fun acc p => bump acc p.1 p.2) t

/-- Python calendar.day_abbr table, Monday first. -/
def day_abbr : List String := ["Mon", "Tue", "Wed", "Thu", "Fri", "Sat", "Sun"]

/-- Commit fold for one week entry, lines 128 to 131 of src/github-api.py:
for each index and count of the days list, when the count is positive, add it
to the Counter under calendar.day_abbr of the index. -/
def fold_week (t : String → Int) (days : List Int) : String → Int :=
  days.enum.foldl
    (fun acc p => if p.2 > 0 then bump acc (day_abbr.getD p.1 "") p.2 else acc) t

/-- Commit fold over all week entries of one commit activity response. -/
def fold_commit_weeks (t : String → Int) (weeks : List (List Int)) : String → Int :=
  weeks.foldl fold_week t

/-- Python expression value or default for string fields: None and the empty
string are falsy and give the default. -/
def or_default (v : Option String) (d : String) : String :=
  match v with
  | none => d
  | some s => if s = "" then d else s

/-- Entry of the popular_repos list, lines 138 to 144 of src/github-api.py. -/
structure PopularRepo where
  name : String
  stars : Int
  forks : Int
  description : String
  main_language : String
deriving DecidableEq

/-- One repository together with its fetched sub-resources: the language
mapping as a list of key and byte count pairs in iteration order, and the
days arrays of the commit activity weeks. A failed sub-resource fetch is the
empty list, as produced by the `or` fallbacks of get_repo_languages and
get_commit_activity. -/
structure RepoData where
  repo : RawRepo
  languages : List (String × Int)
  commit_weeks : List (List Int)
deriving DecidableEq

/-- The aggregate produced by analyze_user_activity, restricted to the fields
the analysis loop writes. -/
structure Analysis where
  user_info : UserSummary
  languages : String → Int
  commit_days : String → Int
  total_stars : Int
  total_forks : Int
  popular_repos : List PopularRepo

/-- Stable insertion of one entry into a list sorted descending by stars: the
entry is placed before the first element whose stars do not exceed its own,
so among equal star counts the element coming from the earlier position stays
first. -/
def insert_desc (x : PopularRepo) : List PopularRepo → List PopularRepo
  | [] => [x]
  | y :: ys => if y.stars ≤ x.stars then x :: y :: ys else y :: insert_desc x ys

/-- The final popular_repos sort, lines 147 to 149 of src/github-api.py:
list.sort with key stars and reverse True is a stable descending sort, here
realised as stable insertion sort. -/
def sort_by_stars (l : List PopularRepo) : List PopularRepo :=
  l.foldr insert_desc []

/-- Body of the per-repository analysis loop, lines 118 to 144 of
src/github-api.py, folding one repository and its sub-resources into the
running aggregate. -/
def fold_repo (a : Analysis) (rd : RepoData) : Analysis :=
  { a with
    languages := fold_languages a.languages rd.languages
    commit_days := fold_commit_weeks a.commit_days rd.commit_weeks
    total_stars := a.total_stars + rd.repo.stargazers_count
    total_forks := a.total_forks + rd.repo.forks_count
    popular_repos :=
      if rd.repo.stargazers_count > 0 then
        a.popular_repos ++
          [{ name := rd.repo.name
             stars := rd.repo.stargazers_count
             forks := rd.repo.forks_count
             description := or_default rd.repo.description "No description"
             main_language := or_default rd.repo.language "Not specified" }]
      else a.popular_repos }

/-- Initial aggregate built at lines 92 to 115 of src/github-api.py. -/
def init_analysis (u : UserInfo) : Analysis :=
  { user_info := assemble_user_info u
    languages := fun _ => 0
    commit_days := fun _ => 0
    total_stars := 0
    total_forks := 0
    popular_repos := [] }

/-- analyze_user_activity, lines 81 to 151 of src/github-api.py (lines 91 to
156 of src/github_analyzer_app.py are identical in the modelled fields). The
profile argument is the result of get_user_info: None when that request
failed, in which case the method returns the empty dict, modelled as none,
before any repository is fetched. Each discovered repository arrives with its
fetched sub-resources. -/
def analyze_user_activity (user_info : Option UserInfo) (repos : List RepoData) :
    Option Analysis :=
  match user_info with
  | none => none
  | some u =>
    let a := repos.foldl fold_repo (init_analysis u)
    some { a with popular_repos := sort_by_stars a.popular_repos }

/-- Sample repository used by the concrete evaluations below. -/
def sample_repo : RawRepo :=
  { full_name := "u/a"
    name := "a"
    stargazers_count := 1
    forks_count := 0
    description := none
    language := none }

/-- Sample profile with every optional key absent. -/
def sample_user : UserInfo :=
  { name := JField.absent
    bio := JField.absent
    location := JField.absent
    public_repos := JField.absent
    followers := JField.absent
    following := JField.absent
    created_at := JField.absent }

/-- Default aggregate used to read concrete analysis results out of Option. -/
def empty_analysis : Analysis := init_analysis sample_user

/-- Sample profile whose name key is present with a null value and whose
location key is present with a string, while bio is absent. -/
def null_name_user : UserInfo :=
  { name := JField.present none
    bio := JField.absent
    location := JField.present (some "NL")
    public_repos := JField.absent
    followers := JField.absent
    following := JField.absent
    created_at := JField.absent }

/-- Repository A of the end to end example: 10 stars, 2 forks. -/
def repo_a : RawRepo :=
  { full_name := "u/A"
    name := "A"
    stargazers_count := 10
    forks_count := 2
    description := none
    language := none }

/-- Repository B of the end to end example: no stars, no forks. -/
def repo_b : RawRepo :=
  { full_name := "u/B"
    name := "B"
    stargazers_count := 0
    forks_count := 0
    description := none
    language := none }

/-- Repository A with its language bytes. -/
def rd_a : RepoData := { repo := repo_a, languages := [("X", 100)], commit_weeks := [] }

/-- Repository B with its language bytes. -/
def rd_b : RepoData :=
  { repo := repo_b, languages := [("X", 50), ("Y", 50)], commit_weeks := [] }

/-- Three repositories with stars 5, 5 and 9, discovered in this order, used
to exercise the popularity sort. -/
def repo_p : RawRepo :=
  { full_name := "u/p"
    name := "p"
    stargazers_count := 5
    forks_count := 0
    description := none
    language := none }

/-- Second five star repository, discovered after repo_p. -/
def repo_q : RawRepo :=
  { full_name := "u/q"
    name := "q"
    stargazers_count := 5
    forks_count := 0
    description := none
    language := none }

/-- Nine star repository, discovered last. -/
def repo_r : RawRepo :=
  { full_name := "u/r"
    name := "r"
    stargazers_count := 9
    forks_count := 0
    description := none
    language := none }

/-- Discovery sequence for the popularity sort example. -/
def c7_repos : List RepoData :=
  [ { repo := repo_p, languages := [], commit_weeks := [] }
  , { repo := repo_q, languages := [], commit_weeks := [] }
  , { repo := repo_r, languages := [], commit_weeks := [] } ]

/-- Popular entry generated for repo_p. -/
def entry_p : PopularRepo :=
  { name := "p", stars := 5, forks := 0, description := "No description"
    main_language := "Not specified" }

/-- Popular entry generated for repo_q. -/
def entry_q : PopularRepo :=
  { name := "q", stars := 5, forks := 0, description := "No description"
    main_language := "Not specified" }

/-- Computed analysis of the end to end example with repositories A and B. -/
def c9_analysis : Analysis :=
  (analyze_user_activity (some sample_user) [rd_a, rd_b]).getD empty_analysis

/-! Paginator lemmas. -/

/-- Running the terminal paginator through a block of non-empty pages
accumulates them all and continues on the remaining responses. -/
theorem get_user_repos_api_append (ps : List (List RawRepo)) (rest : List PageResp)
    (h : ∀ l ∈ ps, l ≠ []) :
    get_user_repos_api (ps.map PageResp.page ++ rest) =
      ps.flatten ++ get_user_repos_api rest := by
  induction ps with
  | nil => simp
  | cons l ps ih =>
    obtain ⟨r, rs, rfl⟩ := List.exists_cons_of_ne_nil (h l (by simp))
    simp only [List.map_cons, List.cons_append, get_user_repos_api, List.flatten_cons,
      List.append_assoc, List.append_eq]
    rw [ih (fun x hx => h x (by simp [hx]))]

/-- The terminal paginator issues one request per non-empty page in the block
plus whatever the remaining responses cause. -/
theorem pages_requested_api_append (ps : List (List RawRepo)) (rest : List PageResp)
    (h : ∀ l ∈ ps, l ≠ []) :
    pages_requested_api (ps.map PageResp.page ++ rest) =
      ps.length + pages_requested_api rest := by
  induction ps with
  | nil => simp [pages_requested_api]
  | cons l ps ih =>
    obtain ⟨r, rs, rfl⟩ := List.exists_cons_of_ne_nil (h l (by simp))
    simp only [List.map_cons, List.cons_append, pages_requested_api, List.length_cons,
      List.append_eq]
    rw [ih (fun x hx => h x (by simp [hx]))]
    omega

/-- Running the dashboard paginator through a block of pages of length 100
accumulates them all and continues on the remaining responses. -/
theorem get_user_repos_app_append (ps : List (List RawRepo)) (rest : List PageResp)
    (h : ∀ l ∈ ps, l.length = 100) :
    get_user_repos_app (ps.map PageResp.page ++ rest) =
      ps.flatten ++ get_user_repos_app rest := by
  induction ps with
  | nil => simp
  | cons l ps ih =>
    have hl : l.length = 100 := h l (by simp)
    have hne : l ≠ [] := by intro e; rw [e] at hl; simp at hl
    obtain ⟨r, rs, rfl⟩ := List.exists_cons_of_ne_nil hne
    simp only [List.map_cons, List.cons_append, get_user_repos_app, List.flatten_cons,
      List.append_assoc, List.append_eq]
    rw [if_neg (by simp only [List.length_cons] at hl ⊢; omega),
      ih (fun x hx => h x (by simp [hx]))]

/-- The dashboard paginator issues one request per page of length 100 in the
block plus whatever the remaining responses cause. -/
theorem pages_requested_app_append (ps : List (List RawRepo)) (rest : List PageResp)
    (h : ∀ l ∈ ps, l.length = 100) :
    pages_requested_app (ps.map PageResp.page ++ rest) =
      ps.length + pages_requested_app rest := by
  induction ps with
  | nil => simp [pages_requested_app]
  | cons l ps ih =>
    have hl : l.length = 100 := h l (by simp)
    have hne : l ≠ [] := by intro e; rw [e] at hl; simp at hl
    obtain ⟨r, rs, rfl⟩ := List.exists_cons_of_ne_nil hne
    simp only [List.map_cons, List.cons_append, pages_requested_app, List.length_cons,
      List.append_eq]
    rw [if_neg (by simp only [List.length_cons] at hl ⊢; omega),
      ih (fun x hx => h x (by simp [hx]))]
    omega

/-- C1 (amended): for a page sequence I ++ [L] where every page of I has
exactly 100 entries and L has fewer than 100, followed by the empty page the
server would serve next, both implementations return the concatenation of all
pages in order; the dashboard implementation stops after the short page,
issuing exactly one request per page, while the terminal implementation
issues exactly one further request after a non-empty short page (receiving
the empty page) and only stops then. -/
theorem c1_pagination_amended (I : List (List RawRepo)) (L : List RawRepo)
    (hfull : ∀ l ∈ I, l.length = 100) (hshort : L.length < 100) :
    get_user_repos_app ((I ++ [L]).map PageResp.page ++ [PageResp.page []]) =
      (I ++ [L]).flatten ∧
    pages_requested_app ((I ++ [L]).map PageResp.page ++ [PageResp.page []]) =
      (I ++ [L]).length ∧
    get_user_repos_api ((I ++ [L]).map PageResp.page ++ [PageResp.page []]) =
      (I ++ [L]).flatten ∧
    (L = [] →
      pages_requested_api ((I ++ [L]).map PageResp.page ++ [PageResp.page []]) =
        (I ++ [L]).length) ∧
    (L ≠ [] →
      pages_requested_api ((I ++ [L]).map PageResp.page ++ [PageResp.page []]) =
        (I ++ [L]).length + 1) := by
  have harr : (I ++ [L]).map PageResp.page ++ [PageResp.page []] =
      I.map PageResp.page ++ [PageResp.page L, PageResp.page []] := by
    simp
  rw [harr]
  have hIne : ∀ l ∈ I, l ≠ [] := by
    intro l hl e
    have := hfull l hl
    rw [e] at this
    simp at this
  refine ⟨?_, ?_, ?_, ?_, ?_⟩
  · rw [get_user_repos_app_append I _ hfull]
    cases L with
    | nil => simp [get_user_repos_app]
    | cons r rs =>
      simp only [get_user_repos_app, if_pos hshort, List.flatten_append]
      simp
  · rw [pages_requested_app_append I _ hfull]
    cases L with
    | nil => simp [pages_requested_app]
    | cons r rs =>
      simp only [pages_requested_app, if_pos hshort]
      simp
  · rw [get_user_repos_api_append I _ hIne]
    cases L with
    | nil => simp [get_user_repos_api]
    | cons r rs => simp [get_user_repos_api]
  · intro hL
    subst hL
    rw [pages_requested_api_append I _ hIne]
    simp [pages_requested_api]
  · intro hL
    obtain ⟨r, rs, rfl⟩ := List.exists_cons_of_ne_nil hL
    rw [pages_requested_api_append I _ hIne]
    simp [pages_requested_api]

/-- C1 witness: one short page with one repository. The dashboard paginator
returns it with a single request; the terminal paginator also returns it but
issues a second request. -/
theorem c1_pagination_amended_witness :
    get_user_repos_app [PageResp.page [sample_repo], PageResp.page []] = [sample_repo] ∧
    pages_requested_app [PageResp.page [sample_repo], PageResp.page []] = 1 ∧
    pages_requested_api [PageResp.page [sample_repo], PageResp.page []] = 2 := by
  have h := c1_pagination_amended [] [sample_repo] (by simp) (by simp)
  refine ⟨by simpa using h.1, by simpa using h.2.1, ?_⟩
  have h5 := h.2.2.2.2 (by simp)
  simpa using h5

/-- C1 counterexample: on a single short page holding one repository, the
terminal get_user_repos issues a second page request after the short page,
while the claim requires that no further request be issued, that is, exactly
one request in total. -/
theorem c1_counterexample :
    get_user_repos_api [PageResp.page [sample_repo], PageResp.page []] = [sample_repo] ∧
    pages_requested_api [PageResp.page [sample_repo], PageResp.page []] = 2 ∧
    (2 : Nat) ≠ 1 := by
  refine ⟨rfl, rfl, by decide⟩

/-- C4: when some page request fails (transport failure or non-200 status,
both returned as None by _make_request), each implementation halts the crawl
and returns exactly the repositories accumulated from the pages before the
failing one, whatever responses would follow. -/
theorem c4_failure_partial (I : List (List RawRepo)) (rest : List PageResp)
    (hfull : ∀ l ∈ I, l.length = 100) :
    get_user_repos_api (I.map PageResp.page ++ PageResp.failure :: rest) = I.flatten ∧
    get_user_repos_app (I.map PageResp.page ++ PageResp.failure :: rest) = I.flatten := by
  have hIne : ∀ l ∈ I, l ≠ [] := by
    intro l hl e
    have := hfull l hl
    rw [e] at this
    simp at this
  constructor
  · rw [get_user_repos_api_append I _ hIne]
    simp [get_user_repos_api]
  · rw [get_user_repos_app_append I _ hfull]
    simp [get_user_repos_app]

/-- C4 witness: one full page of 100 repositories followed by a failing
request; both implementations return exactly that page. -/
theorem c4_failure_partial_witness :
    get_user_repos_api ([List.replicate 100 sample_repo].map PageResp.page ++
      PageResp.failure :: []) = List.replicate 100 sample_repo ∧
    get_user_repos_app ([List.replicate 100 sample_repo].map PageResp.page ++
      PageResp.failure :: []) = List.replicate 100 sample_repo := by
  have h := c4_failure_partial [List.replicate 100 sample_repo] [] (by simp)
  simpa using h

/-- C2: evaluation of the commit fold at a week with five commits at index 0
and then at a week with a negative count. Per the API convention index 0 is
Sunday, but the code labels index i with calendar.day_abbr, whose entry 0 is
Mon and whose entry 6 is Sun, so the five commits land under Mon and none
under Sun; the claimed mapping 0 to Sunday through 6 to Saturday does not
hold. Non-positive counts are skipped, as the claim states. -/
theorem c2_day_mapping_code_eval :
    fold_commit_weeks (fun _ => 0) [[5, 0, 0, 0, 0, 0, 0]] "Mon" = 5 ∧
    fold_commit_weeks (fun _ => 0) [[5, 0, 0, 0, 0, 0, 0]] "Sun" = 0 ∧
    fold_commit_weeks (fun _ => 0) [[0, 0, 0, 0, 0, 0, 4]] "Sun" = 4 ∧
    fold_commit_weeks (fun _ => 0) [[0, 0, 0, 0, 0, 0, 4]] "Sat" = 0 ∧
    fold_commit_weeks (fun _ => 0) [[-3, 0, 0, 0, 0, 0, 0]] "Mon" = 0 ∧
    day_abbr.getD 0 "" = "Mon" ∧ day_abbr.getD 6 "" = "Sun" := by
  refine ⟨by decide, by decide, by decide, by decide, by decide, by decide, by decide⟩

/-- C3 counterexample: with a previous remaining value of 42, a response with
an absent remaining header and a well formed reset header yields remaining 0,
not the preserved 42 the claim requires for an absent header. -/
theorem c3_observe_counterexample :
    observe { rate_limit_remaining := some 42, rate_limit_reset := some 7 }
      HeaderVal.absent (HeaderVal.val 100) =
      Except.ok { rate_limit_remaining := some 0, rate_limit_reset := some 100 } ∧
    ({ rate_limit_remaining := some 0, rate_limit_reset := some 100 } : RateState) ≠
      { rate_limit_remaining := some 42, rate_limit_reset := some 100 } := by
  exact ⟨rfl, by decide⟩

/-- C3 (amended): a completed observe is independent of the previous state:
present numeric headers store their values, absent headers store 0, and a
malformed remaining header raises without updating either field, leaving the
state as it was. -/
theorem c3_observe_amended :
    (∀ s₁ s₂ rem rst r₁ r₂, observe s₁ rem rst = Except.ok r₁ →
      observe s₂ rem rst = Except.ok r₂ → r₁ = r₂) ∧
    (∀ s n m, observe s (HeaderVal.val n) (HeaderVal.val m) =
      Except.ok { rate_limit_remaining := some n, rate_limit_reset := some m }) ∧
    (∀ s, observe s HeaderVal.absent HeaderVal.absent =
      Except.ok { rate_limit_remaining := some 0, rate_limit_reset := some 0 }) ∧
    (∀ s rst, observe s HeaderVal.malformed rst = Except.error s) := by
  refine ⟨?_, ?_, ?_, ?_⟩
  · intro s₁ s₂ rem rst r₁ r₂ h₁ h₂
    cases rem <;> cases rst <;> simp_all [observe, int_of_header]
  · intro s n m
    rfl
  · intro s
    rfl
  · intro s rst
    rfl

/-- C3 witness: the state independence applied to two different previous
states under the same headers, and the raise on a malformed header at a
concrete state. -/
theorem c3_observe_amended_witness :
    ({ rate_limit_remaining := some 0, rate_limit_reset := some 100 } : RateState) =
      { rate_limit_remaining := some 0, rate_limit_reset := some 100 } ∧
    observe { rate_limit_remaining := some 42, rate_limit_reset := some 7 }
      HeaderVal.malformed (HeaderVal.val 9) =
      Except.error { rate_limit_remaining := some 42, rate_limit_reset := some 7 } :=
  ⟨c3_observe_amended.1 { rate_limit_remaining := some 42, rate_limit_reset := some 7 }
      { rate_limit_remaining := none, rate_limit_reset := none }
      HeaderVal.absent (HeaderVal.val 100) _ _ rfl rfl,
    c3_observe_amended.2.2.2 { rate_limit_remaining := some 42, rate_limit_reset := some 7 }
      (HeaderVal.val 9)⟩

/-- C5: when the top level profile fetch fails, analyze_user_activity
returns the empty result, whatever repository data any further fetching could
have produced, so the outcome does not depend on any repository request and
no error escapes; only the profile failure is fatal. -/
theorem c5_profile_failure_fatal (repos : List RepoData) :
    analyze_user_activity none repos = none := rfl

/-- C6: before a request, the flow waits exactly when the remaining quota is
known and below 5 and the reset time is after now, and then for reset minus
now plus the one second margin; in every other state it proceeds at once. In
particular remaining 3 with reset 10 seconds ahead delays the request by 11
seconds, at least 10 plus the margin. -/
theorem c6_maybe_wait_spec :
    (∀ r t now, r < 5 → now < t →
      maybe_wait { rate_limit_remaining := some r, rate_limit_reset := some t } now =
        some (t - now + 1)) ∧
    (∀ r t now, ¬ (r < 5 ∧ now < t) →
      maybe_wait { rate_limit_remaining := some r, rate_limit_reset := some t } now =
        some 0) ∧
    (∀ t now, maybe_wait { rate_limit_remaining := none, rate_limit_reset := t } now =
      some 0) ∧
    (∀ w r t now,
      maybe_wait { rate_limit_remaining := some r, rate_limit_reset := some t } now =
        some w → (0 < w ↔ r < 5 ∧ now < t)) ∧
    (∀ now, maybe_wait
        { rate_limit_remaining := some 3, rate_limit_reset := some (now + 10) } now =
      some (10 + 1)) := by
  refine ⟨?_, ?_, ?_, ?_, ?_⟩
  · intro r t now h1 h2
    simp [maybe_wait, h1, h2]
  · intro r t now h
    rcases Classical.em (r < 5) with h5 | h5
    · have ht : ¬ now < t := fun ht => h ⟨h5, ht⟩
      simp [maybe_wait, h5, ht]
    · simp [maybe_wait, h5]
  · intro t now
    rfl
  · intro w r t now h
    by_cases h5 : r < 5
    · by_cases ht : now < t
      · simp [maybe_wait, h5, ht] at h
        constructor
        · intro _
          exact ⟨h5, ht⟩
        · intro _
          omega
      · simp [maybe_wait, h5, ht] at h
        constructor
        · intro hw
          omega
        · intro hc
          exact absurd hc.2 ht
    · simp [maybe_wait, h5] at h
      constructor
      · intro hw
        omega
      · intro hc
        exact absurd hc.1 h5
  · intro now
    have h1 := (by omega : (3 : Int) < 5)
    have h2 := (by omega : now < now + 10)
    simp [maybe_wait, h1, h2]

/-- C6 witness: with remaining 3 and reset 10 seconds ahead of now 10 the
wait is 11 seconds, and with remaining 7 no wait happens. -/
theorem c6_maybe_wait_spec_witness :
    maybe_wait { rate_limit_remaining := some 3, rate_limit_reset := some 20 } 10 =
      some 11 ∧
    maybe_wait { rate_limit_remaining := some 7, rate_limit_reset := some 20 } 10 =
      some 0 := by
  constructor
  · have h := c6_maybe_wait_spec.1 3 20 10 (by decide) (by decide)
    simpa using h
  · exact c6_maybe_wait_spec.2.1 7 20 10 (by decide)

/-! Stable sort lemmas. -/

/-- Membership through stable insertion. -/
theorem mem_insert_desc (x z : PopularRepo) (m : List PopularRepo) :
    z ∈ insert_desc x m ↔ z = x ∨ z ∈ m := by
  induction m with
  | nil => simp [insert_desc]
  | cons y ys ih =>
    by_cases h : y.stars ≤ x.stars
    · simp only [insert_desc, if_pos h, List.mem_cons]
    · simp only [insert_desc, if_neg h, List.mem_cons, ih]
      tauto

/-- Stable insertion preserves the descending pairwise order. -/
theorem pairwise_insert_desc (x : PopularRepo) (m : List PopularRepo)
    (h : m.Pairwise (fun a b => b.stars ≤ a.stars)) :
    (insert_desc x m).Pairwise (fun a b => b.stars ≤ a.stars) := by
  induction m with
  | nil => simp [insert_desc]
  | cons y ys ih =>
    rw [List.pairwise_cons] at h
    by_cases hc : y.stars ≤ x.stars
    · simp only [insert_desc, if_pos hc]
      refine List.Pairwise.cons ?_ (List.pairwise_cons.mpr ⟨h.1, h.2⟩)
      intro z hz
      rcases List.mem_cons.mp hz with rfl | hz2
      · exact hc
      · exact le_trans (h.1 z hz2) hc
    · simp only [insert_desc, if_neg hc]
      refine List.Pairwise.cons ?_ (ih h.2)
      intro z hz
      rcases (mem_insert_desc x z ys).mp hz with rfl | hz2
      · exact le_of_lt (lt_of_not_le hc)
      · exact h.1 z hz2

/-- Stable insertion only adds the inserted element. -/
theorem sublist_insert_desc (x : PopularRepo) (m : List PopularRepo) :
    List.Sublist m (insert_desc x m) := by
  induction m with
  | nil => simp [insert_desc]
  | cons y ys ih =>
    by_cases hc : y.stars ≤ x.stars
    · simp only [insert_desc, if_pos hc]
      exact List.Sublist.cons x (List.Sublist.refl _)
    · simp only [insert_desc, if_neg hc]
      exact List.Sublist.cons₂ y ih

/-- A member whose stars do not exceed those of the inserted element ends up
after it. -/
theorem cons_sublist_insert_desc (x b : PopularRepo) (m : List PopularRepo)
    (hb : b ∈ m) (hs : b.stars ≤ x.stars) : List.Sublist [x, b] (insert_desc x m) := by
  induction m with
  | nil => cases hb
  | cons y ys ih =>
    by_cases hc : y.stars ≤ x.stars
    · simp only [insert_desc, if_pos hc]
      exact List.Sublist.cons₂ x (List.singleton_sublist.mpr hb)
    · simp only [insert_desc, if_neg hc]
      rcases List.mem_cons.mp hb with rfl | hb2
      · exact absurd hs hc
      · exact List.Sublist.cons y (ih hb2)

/-- Unfolding of the stable sort on a cons cell. -/
theorem sort_by_stars_cons (x : PopularRepo) (l : List PopularRepo) :
    sort_by_stars (x :: l) = insert_desc x (sort_by_stars l) := rfl

/-- The stable sort preserves membership. -/
theorem mem_sort_by_stars (z : PopularRepo) (l : List PopularRepo) :
    z ∈ sort_by_stars l ↔ z ∈ l := by
  induction l with
  | nil => simp [sort_by_stars]
  | cons y ys ih =>
    rw [sort_by_stars_cons, mem_insert_desc]
    simp [ih]

/-- The stable sort output is pairwise descending by stars. -/
theorem pairwise_sort_by_stars (l : List PopularRepo) :
    (sort_by_stars l).Pairwise (fun a b => b.stars ≤ a.stars) := by
  induction l with
  | nil => simp [sort_by_stars]
  | cons y ys ih =>
    rw [sort_by_stars_cons]
    exact pairwise_insert_desc y _ ih

/-- Two entries with equal stars keep their input order through the stable
sort. -/
theorem sort_by_stars_stable (l : List PopularRepo) (x y : PopularRepo)
    (h : List.Sublist [x, y] l) (he : x.stars = y.stars) :
    List.Sublist [x, y] (sort_by_stars l) := by
  induction l with
  | nil => simp at h
  | cons c cs ih =>
    rw [sort_by_stars_cons]
    cases h with
    | cons _ h2 => exact (ih h2).trans (sublist_insert_desc c _)
    | cons₂ _ h2 =>
      exact cons_sublist_insert_desc x y _
        ((mem_sort_by_stars y cs).mpr (List.singleton_sublist.mp h2))
        (le_of_eq he.symm)

/-- C7: the popular repository list of every analysis result is pairwise
descending by stars, and any two entries with equal stars keep the relative
order they had in the unsorted encounter sequence built by the analysis
loop. -/
theorem c7_popular_sorted_stable (u : UserInfo) (repos : List RepoData) (a : Analysis)
    (h : analyze_user_activity (some u) repos = some a) :
    a.popular_repos.Pairwise (fun x y => y.stars ≤ x.stars) ∧
    ∀ x y, List.Sublist [x, y] (repos.foldl fold_repo (init_analysis u)).popular_repos →
      x.stars = y.stars → List.Sublist [x, y] a.popular_repos := by
  have hdef : analyze_user_activity (some u) repos =
      some { repos.foldl fold_repo (init_analysis u) with
        popular_repos :=
          sort_by_stars (repos.foldl fold_repo (init_analysis u)).popular_repos } := rfl
  rw [hdef] at h
  injection h with h2
  subst h2
  exact ⟨pairwise_sort_by_stars _, fun x y hs he => sort_by_stars_stable _ x y hs he⟩

/-- C7 witness: three repositories with stars 5, 5 and 9 in discovery order;
the sorted result is descending and the two five star entries keep their
discovery order. -/
theorem c7_popular_sorted_stable_witness :
    ((analyze_user_activity (some sample_user) c7_repos).getD
        empty_analysis).popular_repos.Pairwise (fun x y => y.stars ≤ x.stars) ∧
    List.Sublist [entry_p, entry_q]
      ((analyze_user_activity (some sample_user) c7_repos).getD
        empty_analysis).popular_repos := by
  have h := c7_popular_sorted_stable sample_user c7_repos
    ((analyze_user_activity (some sample_user) c7_repos).getD empty_analysis) rfl
  exact ⟨h.1, h.2 entry_p entry_q (by decide) (by decide)⟩

/-! Language fold lemmas. -/

/-- Value of the language fold at one key: previous count plus the sum of the
byte counts recorded under that key. -/
theorem fold_languages_apply (ls : List (String × Int)) (t : String → Int) (k : String) :
    fold_languages t ls k = t k + ((ls.filter (fun p => p.1 == k)).map Prod.snd).sum := by
  induction ls generalizing t with
  | nil => simp [fold_languages]
  | cons p ls ih =>
    have hstep : fold_languages t (p :: ls) = fold_languages (bump t p.1 p.2) ls := rfl
    rw [hstep, ih]
    by_cases hk : p.1 = k
    · subst hk
      have hbeq : (p.1 == p.1) = true := by simp
      simp [bump, List.filter_cons, hbeq]
      omega
    · have hbeq : (p.1 == k) = false := by simpa using hk
      have hne : ¬ (k = p.1) := fun e => hk e.symm
      simp [bump, List.filter_cons, hbeq, hne]

/-- The languages component of the analysis fold is the iterated language
fold over the per repository mappings. -/
theorem foldl_fold_repo_languages (repos : List RepoData) (a0 : Analysis) :
    (repos.foldl fold_repo a0).languages =
      repos.foldl (fun t rd => fold_languages t rd.languages) a0.languages := by
  induction repos generalizing a0 with
  | nil => rfl
  | cons rd repos ih =>
    rw [List.foldl_cons, List.foldl_cons, ih]
    rfl

/-- Value of the iterated language fold at one key: the starting count plus
the sum over the flattened mappings. -/
theorem foldl_fold_languages_apply (Ls : List (List (String × Int))) (t : String → Int)
    (k : String) :
    (Ls.foldl (fun t ls => fold_languages t ls) t) k =
      t k + ((Ls.flatten.filter (fun p => p.1 == k)).map Prod.snd).sum := by
  induction Ls generalizing t with
  | nil => simp
  | cons ls Ls ih =>
    rw [List.foldl_cons, ih, fold_languages_apply]
    simp only [List.flatten_cons, List.filter_append, List.map_append, List.sum_append]
    omega

/-- At every key, the languages tally of an analysis result is the sum of the
byte counts recorded under that key across all folded repositories. -/
theorem analysis_languages_apply (u : UserInfo) (repos : List RepoData) (a : Analysis)
    (h : analyze_user_activity (some u) repos = some a) (k : String) :
    a.languages k =
      (((repos.map RepoData.languages).flatten.filter (fun p => p.1 == k)).map
        Prod.snd).sum := by
  have hdef : analyze_user_activity (some u) repos =
      some { repos.foldl fold_repo (init_analysis u) with
        popular_repos :=
          sort_by_stars (repos.foldl fold_repo (init_analysis u)).popular_repos } := rfl
  rw [hdef] at h
  injection h with h2
  subst h2
  have hl : ({ repos.foldl fold_repo (init_analysis u) with
      popular_repos :=
        sort_by_stars (repos.foldl fold_repo (init_analysis u)).popular_repos }).languages =
      (repos.foldl fold_repo (init_analysis u)).languages := rfl
  rw [hl, foldl_fold_repo_languages, ← List.foldl_map, foldl_fold_languages_apply]
  have h0 : (init_analysis u).languages k = 0 := rfl
  rw [h0]
  omega

/-- C8: at every key, the languages tally of an analysis equals the
elementwise sum of the per repository byte counts for that key, and folding
any permutation of the repositories yields the same tally. -/
theorem c8_language_tally (u : UserInfo) (repos : List RepoData) (a : Analysis)
    (h : analyze_user_activity (some u) repos = some a) :
    (∀ k, a.languages k =
      (((repos.map RepoData.languages).flatten.filter (fun p => p.1 == k)).map
        Prod.snd).sum) ∧
    (∀ repos₂ a₂, repos.Perm repos₂ → analyze_user_activity (some u) repos₂ = some a₂ →
      ∀ k, a₂.languages k = a.languages k) := by
  refine ⟨fun k => analysis_languages_apply u repos a h k, ?_⟩
  intro repos₂ a₂ hp h₂ k
  rw [analysis_languages_apply u repos₂ a₂ h₂ k, analysis_languages_apply u repos a h k]
  exact (List.Perm.sum_eq
    ((((hp.map RepoData.languages).flatten).filter _).map Prod.snd)).symm

/-- C8 witness: the tally of the two repository example at key X, and its
invariance under swapping the two repositories. -/
theorem c8_language_tally_witness :
    ((analyze_user_activity (some sample_user) [rd_a, rd_b]).getD
      empty_analysis).languages "X" = 150 ∧
    ((analyze_user_activity (some sample_user) [rd_b, rd_a]).getD
        empty_analysis).languages "X" =
      ((analyze_user_activity (some sample_user) [rd_a, rd_b]).getD
        empty_analysis).languages "X" := by
  have h := c8_language_tally sample_user [rd_a, rd_b]
    ((analyze_user_activity (some sample_user) [rd_a, rd_b]).getD empty_analysis) rfl
  constructor
  · rw [h.1 "X"]
    decide
  · exact h.2 [rd_b, rd_a] _ (List.Perm.swap rd_b rd_a []) rfl "X"

/-- C9: end to end evaluation for a user with repository A (10 stars, 2
forks, 100 bytes of X) and repository B (no stars, no forks, 50 bytes of X
and 50 of Y): the language tally holds 150 for X, 50 for Y and nothing else,
the totals are 10 stars and 2 forks, and the single popular entry is the one
for A. -/
theorem c9_end_to_end :
    (analyze_user_activity (some sample_user) [rd_a, rd_b]).isSome = true ∧
    c9_analysis.languages "X" = 150 ∧
    c9_analysis.languages "Y" = 50 ∧
    (∀ k, k ≠ "X" → k ≠ "Y" → c9_analysis.languages k = 0) ∧
    c9_analysis.total_stars = 10 ∧
    c9_analysis.total_forks = 2 ∧
    c9_analysis.popular_repos.map PopularRepo.name = ["A"] ∧
    c9_analysis.popular_repos.length = 1 := by
  refine ⟨rfl, by decide, by decide, ?_, by decide, by decide, by decide, by decide⟩
  intro k hx hy
  have hchain : c9_analysis.languages k =
      bump (bump (bump (fun _ => 0) "X" 100) "X" 50) "Y" 50 k := rfl
  rw [hchain]
  simp [bump, hx, hy]

/-- C9 witness: the language tally of the example vanishes at a key that is
neither X nor Y. -/
theorem c9_end_to_end_witness : c9_analysis.languages "Z" = 0 :=
  c9_end_to_end.2.2.2.1 "Z" (by decide) (by decide)

/-- The analysis fold never touches the user_info block. -/
theorem foldl_fold_repo_user_info (repos : List RepoData) (a0 : Analysis) :
    (repos.foldl fold_repo a0).user_info = a0.user_info := by
  induction repos generalizing a0 with
  | nil => rfl
  | cons rd repos ih =>
    rw [List.foldl_cons, ih]
    rfl

/-- The user_info block of every analysis result is the assembly of the
profile fields with their dict.get defaults. -/
theorem analysis_user_info (u : UserInfo) (repos : List RepoData) (a : Analysis)
    (h : analyze_user_activity (some u) repos = some a) :
    a.user_info = assemble_user_info u := by
  have hdef : analyze_user_activity (some u) repos =
      some { repos.foldl fold_repo (init_analysis u) with
        popular_repos :=
          sort_by_stars (repos.foldl fold_repo (init_analysis u)).popular_repos } := rfl
  rw [hdef] at h
  injection h with h2
  subst h2
  exact foldl_fold_repo_user_info repos (init_analysis u)

/-- C10: a profile key present with a null value is carried as null into the
result; the N/A default appears only when the key is absent; a present
string value is carried unchanged. This holds for name, bio and location. -/
theorem c10_profile_defaults (u : UserInfo) (repos : List RepoData) (a : Analysis)
    (h : analyze_user_activity (some u) repos = some a) :
    ((u.name = JField.present none → a.user_info.name = none) ∧
      (∀ s, u.name = JField.present (some s) → a.user_info.name = some s) ∧
      (u.name = JField.absent → a.user_info.name = some "N/A")) ∧
    ((u.bio = JField.present none → a.user_info.bio = none) ∧
      (∀ s, u.bio = JField.present (some s) → a.user_info.bio = some s) ∧
      (u.bio = JField.absent → a.user_info.bio = some "N/A")) ∧
    ((u.location = JField.present none → a.user_info.location = none) ∧
      (∀ s, u.location = JField.present (some s) → a.user_info.location = some s) ∧
      (u.location = JField.absent → a.user_info.location = some "N/A")) := by
  rw [analysis_user_info u repos a h]
  refine ⟨⟨?_, ?_, ?_⟩, ⟨?_, ?_, ?_⟩, ⟨?_, ?_, ?_⟩⟩ <;>
    first
      | (intro e; simp [assemble_user_info, jget, e])
      | (intro s e; simp [assemble_user_info, jget, e])

/-- C10 witness: for the profile with a null name, an absent bio and a
present location, the assembled fields are null, the N/A default and the
carried string respectively. -/
theorem c10_profile_defaults_witness :
    ((analyze_user_activity (some null_name_user) []).getD
      empty_analysis).user_info.name = none ∧
    ((analyze_user_activity (some null_name_user) []).getD
      empty_analysis).user_info.bio = some "N/A" ∧
    ((analyze_user_activity (some null_name_user) []).getD
      empty_analysis).user_info.location = some "NL" := by
  have h := c10_profile_defaults null_name_user []
    ((analyze_user_activity (some null_name_user) []).getD empty_analysis) rfl
  exact ⟨h.1.1 rfl, h.2.1.2.2 rfl, h.2.2.2.1 "NL" rfl⟩
